import Mathlib

/-!
Verification development for the imaging library (disintegration/imaging).

The development shallowly embeds the resampling core of the repository:
the canonical NRGBA pixel buffer, the separable two-pass resize engine
(resample.go), the nearest-neighbor path, the filter kernel catalog
(Box, Linear, NearestNeighbor), the chunk decomposition performed by the
parallel work partitioner (parallel.go), the premultiplied-RGBA branches
of the scanner (scan portion of the sources), Crop and CropCenter
(crop.go), Thumbnail (resample.go), Blur and Sharpen.

Machine floating point arithmetic of the Go source is modelled by exact
rational arithmetic over the same formulas; Go integer conversions keep
their truncation semantics.  Transcendental kernels (Gaussian, the
windowed sinc family, the gaussian blur kernel) are modelled as abstract
rational functions, since only their support radii and plumbing matter
to the claims below.
-/

namespace Imaging

/-- Canonical pixel buffer: a Go image.NRGBA whose rectangle is anchored
at the origin, which is the shape of every buffer the core produces.
Field pix models the flat Pix byte array, row stride is 4 * w bytes as
produced by image.NewNRGBA on a (0,0)-(w,h) rectangle. -/
structure NRGBA where
  w : ℕ
  h : ℕ
  pix : ℕ → ℕ

/-- Row stride in bytes of a canonical buffer, 4 bytes per pixel. -/
def NRGBA.stride (img : NRGBA) : ℕ := 4 * img.w

/-- Byte of channel c of the pixel at column x, row y, exactly the
index expression y*Stride + x*4 + c used throughout the Go source. -/
def NRGBA.at (img : NRGBA) (x y c : ℕ) : ℕ :=
  img.pix (y * img.stride + x * 4 + c)

/-- The zero value image.NRGBA{} returned by the degenerate branches. -/
def NRGBA.empty : NRGBA := ⟨0, 0, fun _ => 0⟩

/-- Builds a buffer from a per-pixel function, modelling NewNRGBA
followed by one store to every byte of every pixel: byte i belongs to
pixel column (i mod stride)/4, row i/stride, channel i mod 4. -/
def NRGBA.ofFn (w h : ℕ) (f : ℕ → ℕ → ℕ → ℕ) : NRGBA :=
  ⟨w, h, fun i => f ((i % (4 * w)) / 4) (i / (4 * w)) (i % 4)⟩

/-- A source image as the core sees it: a bounds rectangle with an
arbitrary (possibly negative) minimum corner of size w times h, and the
canonical NRGBA bytes of each pixel at absolute coordinates. -/
structure GoImage where
  minX : ℤ
  minY : ℤ
  w : ℕ
  h : ℕ
  At : ℤ → ℤ → ℕ → ℕ

/-- Clone: copies any source into a fresh canonical buffer whose bounds
start at (0,0), reading the source at its own minimum-corner offset. -/
def Clone (img : GoImage) : NRGBA :=
  NRGBA.ofFn img.w img.h fun x y c => img.At (img.minX + x) (img.minY + y) c

/-- toNRGBA: the conversion applied to every operation input.  In Go it
returns the argument unchanged when it is already an origin-anchored
NRGBA and clones otherwise; in both cases the resulting pixel content is
that of Clone, which is how it is modelled here. -/
def toNRGBA (img : GoImage) : NRGBA := Clone img

/-- Resample filter: a support radius and a kernel weight function. -/
structure ResampleFilter where
  Support : ℚ
  Kernel : ℚ → ℚ

/-- Nearest-neighbor filter: zero support marks the special case, the
kernel is never evaluated (nil in the source). -/
def NearestNeighbor : ResampleFilter := ⟨0, fun _ => 0⟩

/-- Box filter: support 0.5, unit weight inside the half-width. -/
def Box : ResampleFilter :=
  ⟨1/2, fun x => if |x| ≤ 1/2 then 1 else 0⟩

/-- Linear filter: support 1, weight 1 - abs x inside the support. -/
def Linear : ResampleFilter :=
  ⟨1, fun x => if |x| < 1 then 1 - |x| else 0⟩

/-- One destination sample of a 1-D resampling pass over a source line
of srcN samples resized to n samples, with p k the source value at
index k.  This is the body shared verbatim by resizeHorizontal and
resizeVertical in resample.go: window bounds by ceil and floor clamped
to the valid index range, a cached weight list filled by a first loop,
the weight sum, the weighted accumulation loop reading the cache, and
the clamped, rounded store. -/
def resamplePassPixel (srcN n : ℕ) (filter : ResampleFilter) (d : ℕ) (p : ℤ → ℚ) : ℕ :=
  let dX : ℚ := (srcN : ℚ) / (n : ℚ)
  let scaleX : ℚ := max dX 1
  let rX : ℤ := ⌈scaleX * filter.Support⌉
  let fX : ℚ := ((d : ℚ) + 1/2) * dX - 1/2
  let startX : ℤ := max ⌈fX - (rX : ℚ)⌉ 0
  let endX : ℤ := min ⌊fX + (rX : ℚ)⌋ ((srcN : ℤ) - 1)
  let len : ℕ := (endX + 1 - startX).toNat
  let weights : List ℚ :=
    (List.range len).map fun (j : ℕ) => filter.Kernel ((((startX + (j : ℤ)) : ℚ) - fX) / scaleX)
  let weightSum : ℚ := weights.foldl (· + ·) 0
  let total : ℚ :=
    (List.range len).foldl (fun (t : ℚ) (j : ℕ) => t + p (startX + (j : ℤ)) * weights.getD j 0) 0
  let v : ℚ := min (max (total / weightSum) 0) 255
  (⌊v + 1/2⌋).toNat

/-- resizeHorizontal inner computation for destination pixel (dstX,
dstY), channel c: one horizontal 1-D pass sample over row dstY. -/
def resizeHorizontalPixel (src : NRGBA) (width : ℕ) (filter : ResampleFilter)
    (dstX dstY c : ℕ) : ℕ :=
  resamplePassPixel src.w width filter dstX
    fun x => (src.pix (dstY * src.stride + x.toNat * 4 + c) : ℚ)

/-- resizeHorizontal: resizes along x, output is width times src.h. -/
def resizeHorizontal (src : NRGBA) (width : ℕ) (filter : ResampleFilter) : NRGBA :=
  NRGBA.ofFn width src.h fun dstX dstY c =>
    resizeHorizontalPixel src width filter dstX dstY c

/-- resizeVertical inner computation for destination pixel (dstX, dstY),
channel c: one vertical 1-D pass sample over column dstX. -/
def resizeVerticalPixel (src : NRGBA) (height : ℕ) (filter : ResampleFilter)
    (dstX dstY c : ℕ) : ℕ :=
  resamplePassPixel src.h height filter dstY
    fun y => (src.pix (y.toNat * src.stride + dstX * 4 + c) : ℚ)

/-- resizeVertical: resizes along y, output is src.w times height. -/
def resizeVertical (src : NRGBA) (height : ℕ) (filter : ResampleFilter) : NRGBA :=
  NRGBA.ofFn src.w height fun dstX dstY c =>
    resizeVerticalPixel src height filter dstX dstY c

/-- Nearest-neighbor source index along one axis: floor(f + 0.5)
clamped from below by 0 and from above by srcN (not srcN - 1), exactly
as written in resizeNearest. -/
def nearestIdx (srcN dstN : ℕ) (d : ℕ) : ℤ :=
  let dx : ℚ := (srcN : ℚ) / (dstN : ℚ)
  let f : ℚ := ((d : ℚ) + 1/2) * dx - 1/2
  min (max ⌊f + 1/2⌋ 0) (srcN : ℤ)

/-- resizeNearest inner computation: copy the 4 source bytes of the
nearest source pixel. -/
def resizeNearestPixel (src : NRGBA) (width height : ℕ) (dstX dstY c : ℕ) : ℕ :=
  let srcX : ℤ := nearestIdx src.w width dstX
  let srcY : ℤ := nearestIdx src.h height dstY
  src.pix (srcY.toNat * src.stride + srcX.toNat * 4 + c)

/-- resizeNearest: fast nearest-neighbor resize, no filtering. -/
def resizeNearest (src : NRGBA) (width height : ℕ) : NRGBA :=
  NRGBA.ofFn width height fun dstX dstY c =>
    resizeNearestPixel src width height dstX dstY c

/-- Resize from resample.go: negative dimensions and the all-zero pair
give an empty buffer, a zero source gives an empty buffer, a single
zero dimension is derived from the aspect ratio with a floor of one
pixel, then either the nearest-neighbor special case (support at most
zero) or the two-pass convolution with either pass skipped when that
dimension is unchanged. -/
def Resize (img : GoImage) (width height : ℤ) (filter : ResampleFilter) : NRGBA :=
  if width < 0 ∨ height < 0 then NRGBA.empty
  else if width = 0 ∧ height = 0 then NRGBA.empty
  else
    let src := toNRGBA img
    let srcW : ℤ := src.w
    let srcH : ℤ := src.h
    if srcW ≤ 0 ∨ srcH ≤ 0 then NRGBA.empty
    else
      let dstW : ℤ := if width = 0 then max 1 ⌊(height : ℚ) * (srcW : ℚ) / (srcH : ℚ) + 1/2⌋ else width
      let dstH : ℤ := if height = 0 then max 1 ⌊(dstW : ℚ) * (srcH : ℚ) / (srcW : ℚ) + 1/2⌋ else height
      if filter.Support ≤ 0 then resizeNearest src dstW.toNat dstH.toNat
      else
        let dst1 := if srcW ≠ dstW then resizeHorizontal src dstW.toNat filter else src
        if srcH ≠ dstH then resizeVertical dst1 dstH.toNat filter else dst1

/-- The 1-D pass output exactly as the specification phrases it: scale,
widened radius, pixel-center source coordinate, clamped inclusive
window, kernel weights, and the clamped rounded quotient of the
weighted sum by the weight sum, written with index sums over the window
instead of the cached-weight loops of the implementation. -/
def specResample1D (srcN n : ℕ) (filter : ResampleFilter) (d : ℕ) (p : ℤ → ℚ) : ℕ :=
  let scale : ℚ := (srcN : ℚ) / (n : ℚ)
  let s : ℚ := max scale 1
  let r : ℤ := ⌈s * filter.Support⌉
  let f : ℚ := ((d : ℚ) + 1/2) * scale - 1/2
  let lo : ℤ := max ⌈f - (r : ℚ)⌉ 0
  let hi : ℤ := min ⌊f + (r : ℚ)⌋ ((srcN : ℤ) - 1)
  let wsum : ℚ := ∑ k ∈ Finset.Icc lo hi, filter.Kernel (((k : ℚ) - f) / s)
  let csum : ℚ := ∑ k ∈ Finset.Icc lo hi, filter.Kernel (((k : ℚ) - f) / s) * p k
  (⌊min (max (csum / wsum) 0) 255 + 1/2⌋).toNat

/-- Chunk decomposition of the shared atomic counter in parallel.go:
starting from start, successive claims take partSize indices; a claim
whose start is past the data size does no work, and a chunk is clipped
to the data size. -/
def chunkList (partSize dataSize start : ℕ) : List (ℕ × ℕ) :=
  if h : 0 < partSize ∧ start < dataSize then
    (start, min (start + partSize) dataSize) :: chunkList partSize dataSize (start + partSize)
  else []
termination_by dataSize - start
decreasing_by simp_wf; omega

/-- The multiset of (partStart, partEnd) ranges on which parallel.go
invokes the work function, as a list in claim order.  With
parallelization disabled or a single processor the whole range is one
synchronous chunk; otherwise the workers jointly drain the chunk list
produced by the shared counter, whose content does not depend on the
interleaving. -/
def parallelChunks (enabled : Bool) (numProcs dataSize : ℕ) : List (ℕ × ℕ) :=
  let numGoroutines := if enabled ∧ 1 < numProcs then numProcs else 1
  if numGoroutines = 1 then [(0, dataSize)]
  else
    let partSize := dataSize / (numGoroutines * 100)
    let partSize := if partSize < 1 then 1 else partSize
    chunkList partSize dataSize 0

/-- Scanner branch for premultiplied 8-bit RGBA from the scan source:
alpha 0 gives black, alpha 0xff copies, otherwise each color byte is
widened to uint16, multiplied by 0xff, divided by alpha and narrowed
back to uint8. -/
def scanRGBAPixel (s0 s1 s2 s3 : ℕ) : ℕ × ℕ × ℕ × ℕ :=
  let a := s3
  if a = 0 then (0, 0, 0, a)
  else if a = 255 then (s0, s1, s2, a)
  else
    ((s0 * 255 % 65536 / a) % 256,
     (s1 * 255 % 65536 / a) % 256,
     (s2 * 255 % 65536 / a) % 256, a)

/-- Scanner branch for premultiplied 16-bit RGBA64 from the scan
source, taking the 8 big-endian bytes of one pixel: the branch tests
look only at the high alpha byte s6; the division path assembles the
full 16-bit channels in uint32, multiplies by 0xffff, divides by the
16-bit alpha, shifts right by 8 and narrows to uint8. -/
def scanRGBA64Pixel (s0 s1 s2 s3 s4 s5 s6 s7 : ℕ) : ℕ × ℕ × ℕ × ℕ :=
  let a := s6
  if a = 0 then (0, 0, 0, a)
  else if a = 255 then (s0, s2, s4, a)
  else
    let r32 := (s0 * 256 + s1) % 4294967296
    let g32 := (s2 * 256 + s3) % 4294967296
    let b32 := (s4 * 256 + s5) % 4294967296
    let a32 := (s6 * 256 + s7) % 4294967296
    ((r32 * 65535 % 4294967296 / a32 / 256) % 256,
     (g32 * 65535 % 4294967296 / a32 / 256) % 256,
     (b32 * 65535 % 4294967296 / a32 / 256) % 256, a)

/-- The per-pixel RGBA result the claim text prescribes for an 8-bit
premultiplied pixel: alpha through, alpha 0 black, alpha at maximum a
direct copy, otherwise integer division c * max / alpha. -/
def specScanRGBA (s0 s1 s2 s3 : ℕ) : ℕ × ℕ × ℕ × ℕ :=
  if s3 = 0 then (0, 0, 0, s3)
  else if s3 = 255 then (s0, s1, s2, s3)
  else (s0 * 255 / s3, s1 * 255 / s3, s2 * 255 / s3, s3)

/-- The per-pixel result the claim text prescribes for a 16-bit
premultiplied pixel, reading alpha as the full 16-bit value: alpha 0
gives black, alpha at the 16-bit maximum copies the channels directly,
otherwise c * 0xffff / alpha scaled down to 8 bits; the stored alpha
byte is the high byte of the 16-bit alpha. -/
def specScanRGBA64 (s0 s1 s2 s3 s4 s5 s6 s7 : ℕ) : ℕ × ℕ × ℕ × ℕ :=
  let alpha := s6 * 256 + s7
  if alpha = 0 then (0, 0, 0, s6)
  else if alpha = 65535 then (s0, s2, s4, s6)
  else
    ((s0 * 256 + s1) * 65535 / alpha / 256,
     (s2 * 256 + s3) * 65535 / alpha / 256,
     (s4 * 256 + s5) * 65535 / alpha / 256, s6)

/-- Crop of an origin-anchored buffer by the rectangle (x0,y0)-(x1,y1):
SubImage intersects the rectangle with the buffer bounds, and Clone
rebases the intersection to the origin; an empty intersection yields
the zero buffer. -/
def Crop (img : NRGBA) (x0 y0 x1 y1 : ℤ) : NRGBA :=
  let ix0 : ℤ := max x0 0
  let iy0 : ℤ := max y0 0
  let ix1 : ℤ := min x1 (img.w : ℤ)
  let iy1 : ℤ := min y1 (img.h : ℤ)
  if ix0 < ix1 ∧ iy0 < iy1 then
    NRGBA.ofFn (ix1 - ix0).toNat (iy1 - iy0).toNat fun x y c =>
      img.at (ix0.toNat + x) (iy0.toNat + y) c
  else NRGBA.empty

/-- CropCenter from crop.go on an origin-anchored buffer: the crop
rectangle of the requested size centered on the image center, with Go
integer division truncating toward zero. -/
def CropCenter (img : NRGBA) (width height : ℤ) : NRGBA :=
  let centerX : ℤ := Int.tdiv (img.w : ℤ) 2
  let centerY : ℤ := Int.tdiv (img.h : ℤ) 2
  let x0 := centerX - Int.tdiv width 2
  let y0 := centerY - Int.tdiv height 2
  Crop img x0 y0 (x0 + width) (y0 + height)

/-- Thumbnail from resample.go: non-positive requests and empty sources
give the empty buffer, otherwise resize to fill the tighter dimension
(deriving the other from the aspect ratio) and center-crop the rest. -/
def Thumbnail (img : GoImage) (width height : ℤ) (filter : ResampleFilter) : NRGBA :=
  if width ≤ 0 ∨ height ≤ 0 then NRGBA.empty
  else if img.w = 0 ∨ img.h = 0 then NRGBA.empty
  else
    let srcAspect : ℚ := (img.w : ℚ) / (img.h : ℚ)
    let thumbAspect : ℚ := (width : ℚ) / (height : ℚ)
    let tmp := if srcAspect > thumbAspect
      then Resize img 0 height filter
      else Resize img width 0 filter
    CropCenter tmp width height

/-- absint helper of the library: absolute value of an int. -/
def absint (i : ℤ) : ℤ := if i < 0 then -i else i

/-- clamp helper used by the blur passes: truncate x + 0.5 toward zero
to an int64 and saturate into 0..255. -/
def clamp (x : ℚ) : ℕ :=
  let v : ℤ := if 0 ≤ x + 1/2 then ⌊x + 1/2⌋ else ⌈x + 1/2⌉
  if 255 < v then 255
  else if 0 < v then v.toNat
  else 0

/-- One destination sample of the horizontal blur pass: window of
radius len(kernel) - 1 clamped to the row, alpha-weighted channel
accumulation, channels divided by the accumulated alpha and alpha by
the plain weight sum, all through clamp. -/
def blurHorizontalPixel (src : NRGBA) (kernel : List ℚ) (x y c : ℕ) : ℕ :=
  let radius : ℤ := (kernel.length : ℤ) - 1
  let start : ℤ := max ((x : ℤ) - radius) 0
  let stop : ℤ := min ((x : ℤ) + radius) ((src.w : ℤ) - 1)
  let len : ℕ := (stop + 1 - start).toNat
  let weight : ℕ → ℚ := fun j => kernel.getD (absint ((x : ℤ) - (start + j))).toNat 0
  let weightSum : ℚ := (List.range len).foldl (fun (t : ℚ) (j : ℕ) => t + weight j) 0
  let wa : ℕ → ℚ := fun j =>
    (src.pix (y * src.stride + (start + (j : ℤ)).toNat * 4 + 3) : ℚ) * weight j
  let acc : ℕ → ℚ := fun ch =>
    (List.range len).foldl
      (fun (t : ℚ) (j : ℕ) =>
        t + (src.pix (y * src.stride + (start + (j : ℤ)).toNat * 4 + ch) : ℚ) * wa j) 0
  let a : ℚ := (List.range len).foldl (fun (t : ℚ) (j : ℕ) => t + wa j) 0
  if c < 3 then clamp (acc c / a) else clamp (a / weightSum)

/-- blurHorizontal: one alpha-weighted gaussian pass along x. -/
def blurHorizontal (src : NRGBA) (kernel : List ℚ) : NRGBA :=
  NRGBA.ofFn src.w src.h fun x y c => blurHorizontalPixel src kernel x y c

/-- One destination sample of the vertical blur pass, the transpose of
the horizontal pass. -/
def blurVerticalPixel (src : NRGBA) (kernel : List ℚ) (x y c : ℕ) : ℕ :=
  let radius : ℤ := (kernel.length : ℤ) - 1
  let start : ℤ := max ((y : ℤ) - radius) 0
  let stop : ℤ := min ((y : ℤ) + radius) ((src.h : ℤ) - 1)
  let len : ℕ := (stop + 1 - start).toNat
  let weight : ℕ → ℚ := fun j => kernel.getD (absint ((y : ℤ) - (start + j))).toNat 0
  let weightSum : ℚ := (List.range len).foldl (fun (t : ℚ) (j : ℕ) => t + weight j) 0
  let wa : ℕ → ℚ := fun j =>
    (src.pix ((start + (j : ℤ)).toNat * src.stride + x * 4 + 3) : ℚ) * weight j
  let acc : ℕ → ℚ := fun ch =>
    (List.range len).foldl
      (fun (t : ℚ) (j : ℕ) =>
        t + (src.pix ((start + (j : ℤ)).toNat * src.stride + x * 4 + ch) : ℚ) * wa j) 0
  let a : ℚ := (List.range len).foldl (fun (t : ℚ) (j : ℕ) => t + wa j) 0
  if c < 3 then clamp (acc c / a) else clamp (a / weightSum)

/-- blurVertical: one alpha-weighted gaussian pass along y. -/
def blurVertical (src : NRGBA) (kernel : List ℚ) : NRGBA :=
  NRGBA.ofFn src.w src.h fun x y c => blurVerticalPixel src kernel x y c

/-- Blur: non-positive sigma returns Clone of the input unchanged,
otherwise the gaussian kernel of radius ceil(sigma * 3) is sampled and
the two blur passes run.  The transcendental gaussian weight function
is passed in abstractly as gk (sigma and sample point to weight), since
its closed form uses exp, sqrt and pi. -/
def Blur (gk : ℚ → ℚ → ℚ) (img : GoImage) (sigma : ℚ) : NRGBA :=
  if sigma ≤ 0 then Clone img
  else
    let src := toNRGBA img
    let radius : ℕ := (⌈sigma * 3⌉).toNat
    let kernel : List ℚ := (List.range (radius + 1)).map fun i => gk sigma (i : ℚ)
    blurVertical (blurHorizontal src kernel) kernel

/-- Sharpen from sharpen.go: non-positive sigma returns Clone of the
input unchanged, otherwise per byte the value v + (v - blurred)
saturated into 0..255. -/
def Sharpen (gk : ℚ → ℚ → ℚ) (img : GoImage) (sigma : ℚ) : NRGBA :=
  if sigma ≤ 0 then Clone img
  else
    let src := toNRGBA img
    let blurred := Blur gk img sigma
    NRGBA.ofFn src.w src.h fun x y c =>
      let k := y * src.stride + x * 4 + c
      let val : ℤ := (src.pix k : ℤ) + ((src.pix k : ℤ) - (blurred.pix k : ℤ))
      if val < 0 then 0 else if 255 < val then 255 else val.toNat

/-! Helper lemmas. -/

theorem NRGBA.at_ofFn (w h : ℕ) (f : ℕ → ℕ → ℕ → ℕ) (x y c : ℕ)
    (hx : x < w) (hc : c < 4) : (NRGBA.ofFn w h f).at x y c = f x y c := by
  have hlt : x * 4 + c < 4 * w := by omega
  have hw : 0 < 4 * w := by omega
  have e1 : y * (4 * w) + x * 4 + c = 4 * w * y + (x * 4 + c) := by ring
  have e2 : (4 * w * y + (x * 4 + c)) % (4 * w) = x * 4 + c := by
    rw [Nat.mul_add_mod, Nat.mod_eq_of_lt hlt]
  have e3 : (4 * w * y + (x * 4 + c)) / (4 * w) = y := by
    rw [Nat.mul_add_div hw, Nat.div_eq_of_lt hlt, Nat.add_zero]
  have e4 : (4 * w * y + (x * 4 + c)) % 4 = c := by
    have : 4 * w * y + (x * 4 + c) = 4 * (w * y + x) + c := by ring
    rw [this, Nat.mul_add_mod, Nat.mod_eq_of_lt hc]
  have e5 : (x * 4 + c) / 4 = x := by
    have e : x * 4 + c = 4 * x + c := by ring
    rw [e, Nat.mul_add_div (by norm_num), Nat.div_eq_of_lt hc, Nat.add_zero]
  simp only [NRGBA.ofFn, NRGBA.at, NRGBA.stride, e1, e2, e3, e4, e5]

theorem foldl_add_init (l : List ℚ) : ∀ a : ℚ, l.foldl (· + ·) a = a + l.sum := by
  induction l with
  | nil => intro a; simp
  | cons b t ih => intro a; simp only [List.foldl_cons, List.sum_cons, ih]; ring

theorem foldl_range_add (len : ℕ) (g : ℕ → ℚ) :
    (List.range len).foldl (fun (t : ℚ) (j : ℕ) => t + g j) 0 = ∑ j ∈ Finset.range len, g j := by
  induction len with
  | zero => simp
  | succ m ih =>
    rw [List.range_succ, List.foldl_append, ih, Finset.sum_range_succ]
    simp

theorem sum_range_map (len : ℕ) (g : ℕ → ℚ) :
    ((List.range len).map g).sum = ∑ j ∈ Finset.range len, g j := by
  induction len with
  | zero => simp
  | succ m ih =>
    rw [List.range_succ, List.map_append, List.sum_append, ih, Finset.sum_range_succ]
    simp

theorem getD_range_map (len j : ℕ) (g : ℕ → ℚ) (hj : j < len) :
    ((List.range len).map g).getD j 0 = g j := by
  rw [List.getD_eq_getElem?_getD, List.getElem?_map, List.getElem?_range hj]
  rfl

theorem foldl_range_getD (len : ℕ) (q : ℕ → ℚ) (g : ℕ → ℚ) :
    (List.range len).foldl
        (fun (t : ℚ) (j : ℕ) => t + q j * ((List.range len).map g).getD j 0) 0 =
      ∑ j ∈ Finset.range len, g j * q j := by
  rw [foldl_range_add]
  refine Finset.sum_congr rfl fun j hj => ?_
  rw [getD_range_map len j g (Finset.mem_range.mp hj)]
  ring

theorem sum_Icc_int (a b : ℤ) (F : ℤ → ℚ) :
    ∑ k ∈ Finset.Icc a b, F k = ∑ j ∈ Finset.range (b + 1 - a).toNat, F (a + j) := by
  have : Finset.Icc a b =
      (Finset.range (b + 1 - a).toNat).map ⟨fun j : ℕ => a + (j : ℤ), by
        intro x y hxy
        simpa using hxy⟩ := by
    ext k
    simp only [Finset.mem_Icc, Finset.mem_map, Finset.mem_range, Function.Embedding.coeFn_mk]
    constructor
    · intro hk
      refine ⟨(k - a).toNat, by omega, by omega⟩
    · rintro ⟨j, hj, rfl⟩
      omega
  rw [this, Finset.sum_map]
  rfl

/-- The body shared by both 1-D resize passes computes, at every
destination sample, exactly the window-sum formula of the
specification: the cached weight list and the two accumulation loops
collapse to sums of kernel weights over the clamped window. -/
theorem resamplePass_eq_spec (srcN n : ℕ) (filter : ResampleFilter) (d : ℕ) (p : ℤ → ℚ) :
    resamplePassPixel srcN n filter d p = specResample1D srcN n filter d p := by
  simp only [resamplePassPixel, specResample1D]
  rw [foldl_add_init, zero_add, sum_range_map, foldl_range_getD, sum_Icc_int, sum_Icc_int]
  push_cast
  rfl

/-- A single index i is contained in exactly one chunk of the counter
decomposition when start ≤ i < dataSize, and in none otherwise. -/
theorem chunkList_countP (partSize dataSize i : ℕ) (hp : 0 < partSize) :
    ∀ m start, dataSize - start ≤ m →
      (chunkList partSize dataSize start).countP
          (fun c => decide (c.1 ≤ i ∧ i < c.2)) =
        if start ≤ i ∧ i < dataSize then 1 else 0 := by
  intro m
  induction m with
  | zero =>
    intro start hstart
    rw [chunkList]
    have hns : ¬ (0 < partSize ∧ start < dataSize) := by omega
    rw [dif_neg hns]
    have : ¬ (start ≤ i ∧ i < dataSize) := by omega
    simp [this]
  | succ m ih =>
    intro start hstart
    rw [chunkList]
    by_cases hlt : start < dataSize
    · rw [dif_pos ⟨hp, hlt⟩, List.countP_cons,
        ih (start + partSize) (by omega)]
      by_cases hin : start ≤ i ∧ i < min (start + partSize) dataSize
      · have h1 : ¬ (start + partSize ≤ i ∧ i < dataSize) := by omega
        have h2 : start ≤ i ∧ i < dataSize := by omega
        simp [hin, h1, h2]
        omega
      · by_cases h2 : start ≤ i ∧ i < dataSize
        · have h1 : start + partSize ≤ i ∧ i < dataSize := by omega
          simp [hin, h1, h2]
        · have h1 : ¬ (start + partSize ≤ i ∧ i < dataSize) := by omega
          simp [hin, h1, h2]
          omega
    · rw [dif_neg (by omega)]
      have : ¬ (start ≤ i ∧ i < dataSize) := by omega
      simp [this]

theorem toNRGBA_w (img : GoImage) : (toNRGBA img).w = img.w := rfl

theorem toNRGBA_h (img : GoImage) : (toNRGBA img).h = img.h := rfl

theorem resizeHorizontal_w (src : NRGBA) (width : ℕ) (filter : ResampleFilter) :
    (resizeHorizontal src width filter).w = width := rfl

theorem resizeHorizontal_h (src : NRGBA) (width : ℕ) (filter : ResampleFilter) :
    (resizeHorizontal src width filter).h = src.h := rfl

theorem resizeVertical_w (src : NRGBA) (height : ℕ) (filter : ResampleFilter) :
    (resizeVertical src height filter).w = src.w := rfl

theorem resizeVertical_h (src : NRGBA) (height : ℕ) (filter : ResampleFilter) :
    (resizeVertical src height filter).h = height := rfl

theorem resizeNearest_w (src : NRGBA) (width height : ℕ) :
    (resizeNearest src width height).w = width := rfl

theorem resizeNearest_h (src : NRGBA) (width height : ℕ) :
    (resizeNearest src width height).h = height := rfl

/-- Resize with two explicit positive dimensions produces exactly those
dimensions, for every filter. -/
theorem Resize_dims_pos (img : GoImage) (filter : ResampleFilter) (W H : ℤ)
    (hw : 1 ≤ img.w) (hh : 1 ≤ img.h) (hW : 1 ≤ W) (hH : 1 ≤ H) :
    (Resize img W H filter).w = W.toNat ∧ (Resize img W H filter).h = H.toNat := by
  simp only [Resize, toNRGBA_w, toNRGBA_h]
  rw [if_neg (show ¬ (W < 0 ∨ H < 0) by omega),
    if_neg (show ¬ (W = 0 ∧ H = 0) by omega),
    if_neg (show ¬ ((img.w : ℤ) ≤ 0 ∨ (img.h : ℤ) ≤ 0) by omega),
    if_neg (show ¬ (W = 0) by omega), if_neg (show ¬ (H = 0) by omega)]
  by_cases hsup : filter.Support ≤ 0
  · rw [if_pos hsup]
    exact ⟨resizeNearest_w _ _ _, resizeNearest_h _ _ _⟩
  · rw [if_neg hsup]
    by_cases h7 : (img.w : ℤ) ≠ W
    · rw [if_pos h7]
      by_cases h8 : (img.h : ℤ) ≠ H
      · rw [if_pos h8]
        exact ⟨by rw [resizeVertical_w, resizeHorizontal_w], resizeVertical_h _ _ _⟩
      · rw [if_neg h8]
        exact ⟨resizeHorizontal_w _ _ _,
          by rw [resizeHorizontal_h, toNRGBA_h]; omega⟩
    · rw [if_neg h7]
      by_cases h8 : (img.h : ℤ) ≠ H
      · rw [if_pos h8]
        exact ⟨by rw [resizeVertical_w, toNRGBA_w]; omega, resizeVertical_h _ _ _⟩
      · rw [if_neg h8]
        exact ⟨by rw [toNRGBA_w]; omega, by rw [toNRGBA_h]; omega⟩

/-- Resize with width 0 and positive height derives the width from the
aspect ratio with a floor of one pixel. -/
theorem Resize_aspectW_dims (img : GoImage) (filter : ResampleFilter) (H : ℤ)
    (hw : 1 ≤ img.w) (hh : 1 ≤ img.h) (hH : 1 ≤ H) :
    (Resize img 0 H filter).w =
        (max 1 ⌊(H : ℚ) * (img.w : ℚ) / (img.h : ℚ) + 1/2⌋).toNat ∧
      (Resize img 0 H filter).h = H.toNat := by
  have hcast : (max 1 ⌊(H : ℚ) * ((img.w : ℤ) : ℚ) / ((img.h : ℤ) : ℚ) + 1/2⌋) =
      (max 1 ⌊(H : ℚ) * (img.w : ℚ) / (img.h : ℚ) + 1/2⌋) := by push_cast; rfl
  have hD1 : 1 ≤ max 1 ⌊(H : ℚ) * ((img.w : ℤ) : ℚ) / ((img.h : ℤ) : ℚ) + 1/2⌋ :=
    le_max_left 1 _
  simp only [Resize, toNRGBA_w, toNRGBA_h, true_and, and_true, if_true]
  rw [if_neg (show ¬ ((0:ℤ) < 0 ∨ H < 0) by omega),
    if_neg (show ¬ (H = 0) by omega),
    if_neg (show ¬ ((img.w : ℤ) ≤ 0 ∨ (img.h : ℤ) ≤ 0) by omega),
    if_neg (show ¬ (H = 0) by omega)]
  by_cases hsup : filter.Support ≤ 0
  · rw [if_pos hsup]
    exact ⟨by rw [resizeNearest_w, hcast], resizeNearest_h _ _ _⟩
  · rw [if_neg hsup]
    by_cases h7 : (img.w : ℤ) ≠ max 1 ⌊(H : ℚ) * ((img.w : ℤ) : ℚ) / ((img.h : ℤ) : ℚ) + 1/2⌋
    · rw [if_pos h7]
      by_cases h8 : (img.h : ℤ) ≠ H
      · rw [if_pos h8]
        exact ⟨by rw [resizeVertical_w, resizeHorizontal_w, hcast], resizeVertical_h _ _ _⟩
      · rw [if_neg h8]
        exact ⟨by rw [resizeHorizontal_w, hcast],
          by rw [resizeHorizontal_h, toNRGBA_h]; omega⟩
    · rw [if_neg h7]
      by_cases h8 : (img.h : ℤ) ≠ H
      · rw [if_pos h8]
        refine ⟨?_, resizeVertical_h _ _ _⟩
        rw [resizeVertical_w, toNRGBA_w, ← hcast]
        omega
      · rw [if_neg h8]
        refine ⟨?_, by rw [toNRGBA_h]; omega⟩
        rw [toNRGBA_w, ← hcast]
        omega

/-- Resize with height 0 and positive width derives the height from the
aspect ratio with a floor of one pixel. -/
theorem Resize_aspectH_dims (img : GoImage) (filter : ResampleFilter) (W : ℤ)
    (hw : 1 ≤ img.w) (hh : 1 ≤ img.h) (hW : 1 ≤ W) :
    (Resize img W 0 filter).w = W.toNat ∧
      (Resize img W 0 filter).h =
        (max 1 ⌊(W : ℚ) * (img.h : ℚ) / (img.w : ℚ) + 1/2⌋).toNat := by
  have hcast : (max 1 ⌊(W : ℚ) * ((img.h : ℤ) : ℚ) / ((img.w : ℤ) : ℚ) + 1/2⌋) =
      (max 1 ⌊(W : ℚ) * (img.h : ℚ) / (img.w : ℚ) + 1/2⌋) := by push_cast; rfl
  have hD1 : 1 ≤ max 1 ⌊(W : ℚ) * ((img.h : ℤ) : ℚ) / ((img.w : ℤ) : ℚ) + 1/2⌋ :=
    le_max_left 1 _
  simp only [Resize, toNRGBA_w, toNRGBA_h, true_and, and_true, if_true]
  rw [if_neg (show ¬ (W < 0 ∨ (0:ℤ) < 0) by omega),
    if_neg (show ¬ (W = 0) by omega),
    if_neg (show ¬ ((img.w : ℤ) ≤ 0 ∨ (img.h : ℤ) ≤ 0) by omega),
    if_neg (show ¬ (W = 0) by omega)]
  by_cases hsup : filter.Support ≤ 0
  · rw [if_pos hsup]
    exact ⟨resizeNearest_w _ _ _, by rw [resizeNearest_h, hcast]⟩
  · rw [if_neg hsup]
    by_cases h7 : (img.w : ℤ) ≠ W
    · rw [if_pos h7]
      by_cases h8 : (img.h : ℤ) ≠ max 1 ⌊(W : ℚ) * ((img.h : ℤ) : ℚ) / ((img.w : ℤ) : ℚ) + 1/2⌋
      · rw [if_pos h8]
        exact ⟨by rw [resizeVertical_w, resizeHorizontal_w], by rw [resizeVertical_h, hcast]⟩
      · rw [if_neg h8]
        refine ⟨resizeHorizontal_w _ _ _, ?_⟩
        rw [resizeHorizontal_h, toNRGBA_h, ← hcast]
        omega
    · rw [if_neg h7]
      by_cases h8 : (img.h : ℤ) ≠ max 1 ⌊(W : ℚ) * ((img.h : ℤ) : ℚ) / ((img.w : ℤ) : ℚ) + 1/2⌋
      · rw [if_pos h8]
        exact ⟨by rw [resizeVertical_w, toNRGBA_w]; omega, by rw [resizeVertical_h, hcast]⟩
      · rw [if_neg h8]
        refine ⟨by rw [toNRGBA_w]; omega, ?_⟩
        rw [toNRGBA_h, ← hcast]
        omega

/-- The nearest-neighbor source index is always a valid index of the
source axis, even though the upper clamp in the source is the axis size
rather than size - 1. -/
theorem nearestIdx_bounds (srcN dstN d : ℕ) (hs : 1 ≤ srcN) (hd : 1 ≤ dstN)
    (hdlt : d < dstN) :
    0 ≤ nearestIdx srcN dstN d ∧ nearestIdx srcN dstN d ≤ (srcN : ℤ) - 1 := by
  simp only [nearestIdx]
  rw [show ((d : ℚ) + 1/2) * ((srcN : ℚ) / (dstN : ℚ)) - 1/2 + 1/2 =
      ((d : ℚ) + 1/2) * ((srcN : ℚ) / (dstN : ℚ)) from by ring]
  have hd0 : (0:ℚ) < (dstN : ℚ) := by exact_mod_cast hd
  have hs0 : (0:ℚ) < (srcN : ℚ) := by exact_mod_cast hs
  have hpos : (0:ℚ) ≤ ((d : ℚ) + 1/2) * ((srcN : ℚ) / (dstN : ℚ)) := by
    have h1 : (0:ℚ) ≤ (d : ℚ) + 1/2 := by positivity
    have h2 : (0:ℚ) ≤ (srcN : ℚ) / (dstN : ℚ) := by positivity
    exact mul_nonneg h1 h2
  have hlt : ((d : ℚ) + 1/2) * ((srcN : ℚ) / (dstN : ℚ)) < (srcN : ℚ) := by
    have h1 : (d : ℚ) + 1/2 < (dstN : ℚ) := by
      have : (d : ℚ) + 1 ≤ (dstN : ℚ) := by exact_mod_cast hdlt
      linarith
    have h2 : (0:ℚ) < (srcN : ℚ) / (dstN : ℚ) := by positivity
    have h3 := mul_lt_mul_of_pos_right h1 h2
    have h4 : (dstN : ℚ) * ((srcN : ℚ) / (dstN : ℚ)) = (srcN : ℚ) := by
      field_simp
    linarith [h3, h4.le]
  have hfl0 : 0 ≤ ⌊((d : ℚ) + 1/2) * ((srcN : ℚ) / (dstN : ℚ))⌋ :=
    Int.floor_nonneg.mpr hpos
  have hflN : ⌊((d : ℚ) + 1/2) * ((srcN : ℚ) / (dstN : ℚ))⌋ < (srcN : ℤ) := by
    rw [Int.floor_lt]
    push_cast
    exact hlt
  omega

/-- CropCenter on an origin-anchored buffer at least as large as the
requested crop in both dimensions yields exactly the requested
dimensions. -/
theorem CropCenter_dims (img : NRGBA) (W H : ℤ) (hW : 1 ≤ W) (hH : 1 ≤ H)
    (hwle : W ≤ (img.w : ℤ)) (hhle : H ≤ (img.h : ℤ)) :
    (CropCenter img W H).w = W.toNat ∧ (CropCenter img W H).h = H.toNat := by
  simp only [CropCenter, Crop]
  rw [Int.tdiv_eq_ediv (by omega : (0:ℤ) ≤ (img.w : ℤ)) (by omega : (0:ℤ) ≤ (2:ℤ)),
    Int.tdiv_eq_ediv (by omega : (0:ℤ) ≤ (img.h : ℤ)) (by omega : (0:ℤ) ≤ (2:ℤ)),
    Int.tdiv_eq_ediv (by omega : (0:ℤ) ≤ W) (by omega : (0:ℤ) ≤ (2:ℤ)),
    Int.tdiv_eq_ediv (by omega : (0:ℤ) ≤ H) (by omega : (0:ℤ) ≤ (2:ℤ))]
  rw [if_pos (by constructor <;> omega)]
  constructor
  · show ((min ((img.w : ℤ)/2 - W/2 + W) (img.w : ℤ)) -
      max ((img.w : ℤ)/2 - W/2) 0).toNat = W.toNat
    omega
  · show ((min ((img.h : ℤ)/2 - H/2 + H) (img.h : ℤ)) -
      max ((img.h : ℤ)/2 - H/2) 0).toNat = H.toNat
    omega

/-- Thumbnail always returns exactly the requested dimensions: the
resize-to-fill pass produces an intermediate image at least as large as
the request in both dimensions, so the center crop is never clipped. -/
theorem Thumbnail_dims (img : GoImage) (filter : ResampleFilter) (W H : ℤ)
    (hw : 1 ≤ img.w) (hh : 1 ≤ img.h) (hW : 1 ≤ W) (hH : 1 ≤ H) :
    (Thumbnail img W H filter).w = W.toNat ∧ (Thumbnail img W H filter).h = H.toNat := by
  have hwq : (0:ℚ) < (img.w : ℚ) := by exact_mod_cast hw
  have hhq : (0:ℚ) < (img.h : ℚ) := by exact_mod_cast hh
  have hWq : (0:ℚ) < (W : ℚ) := by exact_mod_cast hW
  have hHq : (0:ℚ) < (H : ℚ) := by exact_mod_cast hH
  simp only [Thumbnail]
  rw [if_neg (show ¬ (W ≤ 0 ∨ H ≤ 0) by omega),
    if_neg (show ¬ (img.w = 0 ∨ img.h = 0) by omega)]
  by_cases hasp : (img.w : ℚ) / (img.h : ℚ) > (W : ℚ) / (H : ℚ)
  · rw [if_pos hasp]
    obtain ⟨hrw, hrh⟩ := Resize_aspectW_dims img filter H hw hh hH
    have hasp2 : (W : ℚ) / (H : ℚ) < (img.w : ℚ) / (img.h : ℚ) := hasp
    have hWlt : (W : ℚ) < (H : ℚ) * (img.w : ℚ) / (img.h : ℚ) := by
      rw [lt_div_iff₀ hhq]
      rw [div_lt_div_iff₀ hHq hhq] at hasp2
      linarith
    have hWD : W ≤ max 1 ⌊(H : ℚ) * (img.w : ℚ) / (img.h : ℚ) + 1/2⌋ := by
      refine le_trans ?_ (le_max_right 1 _)
      rw [Int.le_floor]
      linarith
    refine CropCenter_dims _ W H hW hH ?_ ?_
    · rw [hrw]; omega
    · rw [hrh]; omega
  · rw [if_neg hasp]
    obtain ⟨hrw, hrh⟩ := Resize_aspectH_dims img filter W hw hh hW
    have hasp2 : (img.w : ℚ) / (img.h : ℚ) ≤ (W : ℚ) / (H : ℚ) := not_lt.mp hasp
    have hHlt : (H : ℚ) ≤ (W : ℚ) * (img.h : ℚ) / (img.w : ℚ) := by
      rw [le_div_iff₀ hwq]
      rw [div_le_div_iff₀ hhq hHq] at hasp2
      linarith
    have hHD : H ≤ max 1 ⌊(W : ℚ) * (img.h : ℚ) / (img.w : ℚ) + 1/2⌋ := by
      refine le_trans ?_ (le_max_right 1 _)
      rw [Int.le_floor]
      linarith
    refine CropCenter_dims _ W H hW hH ?_ ?_
    · rw [hrw]; omega
    · rw [hrh]; omega

/-- Resize with a negative requested dimension returns the empty
buffer. -/
theorem Resize_neg (img : GoImage) (filter : ResampleFilter) (W H : ℤ)
    (hneg : W < 0 ∨ H < 0) : Resize img W H filter = NRGBA.empty := by
  rw [Resize, if_pos hneg]

theorem Clone_w (img : GoImage) : (Clone img).w = img.w := rfl

theorem Clone_h (img : GoImage) : (Clone img).h = img.h := rfl

/-- The per-pixel RGBA result for a 16-bit premultiplied pixel with the
branch conditions the code actually uses: the zero and maximum tests
read only the high byte s6 of the 16-bit alpha. -/
def specScanRGBA64Amended (s0 s1 s2 s3 s4 s5 s6 s7 : ℕ) : ℕ × ℕ × ℕ × ℕ :=
  if s6 = 0 then (0, 0, 0, s6)
  else if s6 = 255 then (s0, s2, s4, s6)
  else
    ((s0 * 256 + s1) * 65535 / (s6 * 256 + s7) / 256,
     (s2 * 256 + s3) * 65535 / (s6 * 256 + s7) / 256,
     (s4 * 256 + s5) * 65535 / (s6 * 256 + s7) / 256, s6)

/-! Concrete fixtures used by witnesses and counterexamples. -/

/-- A 2 by 2 fully opaque white source image anchored at the origin. -/
def gimg : GoImage := ⟨0, 0, 2, 2, fun _ _ _ => 255⟩

/-- A 2 by 2 canonical buffer holding opaque white pixels. -/
def wimg : NRGBA := ⟨2, 2, fun _ => 255⟩

/-- A 2 by 2 image with three opaque white pixels and one fully
transparent corner pixel at (1,1), all of whose bytes are zero. -/
def c4img : GoImage := ⟨0, 0, 2, 2, fun x y _ => if x = 1 ∧ y = 1 then 0 else 255⟩

theorem range_two : List.range 2 = [0, 1] := rfl

/-- Evaluation of the shared 1-D pass for a 2-sample line resized to 1
sample with the Box filter: the window is the whole line and both
weights are 1. -/
theorem resamplePass_2_1_Box (p : ℤ → ℚ) :
    resamplePassPixel 2 1 Box 0 p =
      (⌊min (max ((p 0 + p 1) / 2) 0) 255 + 1/2⌋).toNat := by
  have hceil : (⌈-(1/2 : ℚ)⌉ : ℤ) = 0 := by
    rw [Int.ceil_eq_iff] <;> norm_num
  have ht : ((2 : ℤ).toNat) = 2 := rfl
  have habs : |(1/4 : ℚ)| = 1/4 := by
    rw [abs_of_nonneg] ; norm_num
  simp only [resamplePassPixel, Box]
  norm_num [range_two, hceil, ht, habs]

/-- Resize with both dimensions zero returns the empty buffer. -/
theorem Resize_zero_zero (img : GoImage) (filter : ResampleFilter) :
    Resize img 0 0 filter = NRGBA.empty := by
  rw [Resize, if_neg (by omega), if_pos ⟨rfl, rfl⟩]

theorem c4img_w : c4img.w = 2 := rfl

theorem c4img_h : c4img.h = 2 := rfl

/-- The 2 by 2 to 1 by 1 Box resize of the transparent-corner image
routes through both passes. -/
theorem c4_two_pass : Resize c4img 1 1 Box =
    resizeVertical (resizeHorizontal (toNRGBA c4img) 1 Box) 1 Box := by
  simp only [Resize, toNRGBA_w, toNRGBA_h, c4img_w, c4img_h]
  norm_num [Box]

/-- Reading the canonical conversion of the transparent-corner image. -/
theorem c4_src_at (x y c : ℕ) (hx : x < 2) (hc : c < 4) :
    (toNRGBA c4img).at x y c = (if x = 1 ∧ y = 1 then 0 else 255) := by
  have h := NRGBA.at_ofFn 2 2
    (fun a b ch => c4img.At ((0:ℤ) + a) ((0:ℤ) + b) ch) x y c hx hc
  rw [show (toNRGBA c4img).at x y c =
    c4img.At ((0:ℤ) + x) ((0:ℤ) + y) c from h]
  simp only [c4img, zero_add]
  have hiff : ((x:ℤ) = 1 ∧ (y:ℤ) = 1) ↔ (x = 1 ∧ y = 1) := by
    constructor <;> intro hk <;> constructor <;> omega
  rw [if_congr hiff rfl rfl]

/-- One horizontal pass sample of the transparent-corner resize. -/
theorem c4_row (y c : ℕ) (hy : y < 2) (hc : c < 4) :
    (resizeHorizontal (toNRGBA c4img) 1 Box).at 0 y c =
      (⌊min (max ((((toNRGBA c4img).at 0 y c : ℚ) +
        ((toNRGBA c4img).at 1 y c : ℚ)) / 2) 0) 255 + 1/2⌋).toNat := by
  have h1 := NRGBA.at_ofFn 1 (toNRGBA c4img).h
    (fun a b ch => resizeHorizontalPixel (toNRGBA c4img) 1 Box a b ch) 0 y c
    (by norm_num) hc
  rw [show (resizeHorizontal (toNRGBA c4img) 1 Box).at 0 y c =
    resizeHorizontalPixel (toNRGBA c4img) 1 Box 0 y c from h1]
  rw [show resizeHorizontalPixel (toNRGBA c4img) 1 Box 0 y c =
    resamplePassPixel 2 1 Box 0 (fun x =>
      ((toNRGBA c4img).pix (y * (toNRGBA c4img).stride + x.toNat * 4 + c) : ℚ)) from rfl]
  rw [resamplePass_2_1_Box]
  rfl

/-- Value of the top row of the intermediate horizontal pass: both
source pixels are opaque white. -/
theorem c4_row0 (c : ℕ) (hc : c < 4) :
    (resizeHorizontal (toNRGBA c4img) 1 Box).at 0 0 c = 255 := by
  rw [c4_row 0 c (by norm_num) hc, c4_src_at 0 0 c (by norm_num) hc,
    c4_src_at 1 0 c (by norm_num) hc]
  norm_num
  decide

/-- Value of the bottom row of the intermediate horizontal pass: the
transparent black pixel pulls the average down to 127.5, rounded to
128. -/
theorem c4_row1 (c : ℕ) (hc : c < 4) :
    (resizeHorizontal (toNRGBA c4img) 1 Box).at 0 1 c = 128 := by
  rw [c4_row 1 c (by norm_num) hc, c4_src_at 0 1 c (by norm_num) hc,
    c4_src_at 1 1 c (by norm_num) hc]
  norm_num
  decide

/-- Every channel of the single output pixel of the transparent-corner
Box resize is 192: the color channels are darkened by the zero color of
the transparent pixel. -/
theorem c4_value (c : ℕ) (hc : c < 4) : (Resize c4img 1 1 Box).at 0 0 c = 192 := by
  rw [c4_two_pass]
  have h2 := NRGBA.at_ofFn (resizeHorizontal (toNRGBA c4img) 1 Box).w 1
    (fun a b ch =>
      resizeVerticalPixel (resizeHorizontal (toNRGBA c4img) 1 Box) 1 Box a b ch) 0 0 c
    (by rw [resizeHorizontal_w]; norm_num) hc
  rw [show (resizeVertical (resizeHorizontal (toNRGBA c4img) 1 Box) 1 Box).at 0 0 c =
    resizeVerticalPixel (resizeHorizontal (toNRGBA c4img) 1 Box) 1 Box 0 0 c from h2]
  rw [show resizeVerticalPixel (resizeHorizontal (toNRGBA c4img) 1 Box) 1 Box 0 0 c =
    resamplePassPixel 2 1 Box 0 (fun y =>
      (((resizeHorizontal (toNRGBA c4img) 1 Box).pix
        (y.toNat * (resizeHorizontal (toNRGBA c4img) 1 Box).stride + 0 * 4 + c)) : ℚ)) from rfl]
  rw [resamplePass_2_1_Box]
  rw [show ((resizeHorizontal (toNRGBA c4img) 1 Box).pix
      (((0:ℤ)).toNat * (resizeHorizontal (toNRGBA c4img) 1 Box).stride + 0 * 4 + c)) = 255 from
    c4_row0 c hc]
  rw [show ((resizeHorizontal (toNRGBA c4img) 1 Box).pix
      (((1:ℤ)).toNat * (resizeHorizontal (toNRGBA c4img) 1 Box).stride + 0 * 4 + c)) = 128 from
    c4_row1 c hc]
  norm_num
  decide

theorem gimg_w : gimg.w = 2 := rfl

theorem gimg_h : gimg.h = 2 := rfl

theorem nat_mul_div_le (a b k : ℕ) (h : a ≤ b) (hb : 0 < b) : a * k / b ≤ k := by
  calc a * k / b ≤ b * k / b := Nat.div_le_div_right (Nat.mul_le_mul_right k h)
  _ = k := Nat.mul_div_cancel_left k hb

/-! Claim theorems. -/

/-- Claim C1: each channel of each output pixel of the horizontal
resize pass (and symmetrically of the vertical pass) equals the
specification formula: with scale srcN over n, s the widened scale,
radius ceil of s times Support, source coordinate f, clamped window,
kernel weights, the stored byte is the truncated, clamped, rounded
quotient of the weighted sum of source bytes by the weight sum, with
color channels weighted by the kernel only and not by source alpha. -/
theorem c1_separable_pass_formula (src : NRGBA) (filter : ResampleFilter) (n : ℕ)
    (hw : 1 ≤ src.w) (hh : 1 ≤ src.h) (hsup : 0 < filter.Support)
    (hn : 1 ≤ n) (hneW : n ≠ src.w) (hneH : n ≠ src.h) :
    (∀ dstX dstY c, dstX < n → c < 4 →
      (resizeHorizontal src n filter).at dstX dstY c =
        specResample1D src.w n filter dstX
          (fun k => (src.at k.toNat dstY c : ℚ))) ∧
    (∀ dstX dstY c, dstX < src.w → c < 4 →
      (resizeVertical src n filter).at dstX dstY c =
        specResample1D src.h n filter dstY
          (fun k => (src.at dstX k.toNat c : ℚ))) := by
  constructor
  · intro dstX dstY c hx hc
    exact (NRGBA.at_ofFn n src.h _ dstX dstY c hx hc).trans
      (resamplePass_eq_spec src.w n filter dstX _)
  · intro dstX dstY c hx hc
    exact (NRGBA.at_ofFn src.w n _ dstX dstY c hx hc).trans
      (resamplePass_eq_spec src.h n filter dstY _)

theorem c1_separable_pass_formula_witness :
    (1 ≤ wimg.w ∧ 1 ≤ wimg.h ∧ 0 < Box.Support ∧ 1 ≤ 1 ∧ 1 ≠ wimg.w ∧ 1 ≠ wimg.h) ∧
    ((∀ dstX dstY c, dstX < 1 → c < 4 →
      (resizeHorizontal wimg 1 Box).at dstX dstY c =
        specResample1D wimg.w 1 Box dstX (fun k => (wimg.at k.toNat dstY c : ℚ))) ∧
    (∀ dstX dstY c, dstX < wimg.w → c < 4 →
      (resizeVertical wimg 1 Box).at dstX dstY c =
        specResample1D wimg.h 1 Box dstY (fun k => (wimg.at dstX k.toNat c : ℚ)))) :=
  ⟨⟨by norm_num [wimg], by norm_num [wimg], by norm_num [Box], le_refl 1,
      by norm_num [wimg], by norm_num [wimg]⟩,
    c1_separable_pass_formula wimg Box 1 (by norm_num [wimg]) (by norm_num [wimg])
      (by norm_num [Box]) (le_refl 1) (by norm_num [wimg]) (by norm_num [wimg])⟩

/-- Claim C2: Resize with positive requested dimensions returns a
buffer of exactly those dimensions for every source of positive size
and every filter, nearest-neighbor included; the output buffer is
origin-anchored by construction of the NRGBA model. -/
theorem c2_resize_exact_dims (img : GoImage) (filter : ResampleFilter) (W H : ℕ)
    (hw : 1 ≤ img.w) (hh : 1 ≤ img.h) (hW : 1 ≤ W) (hH : 1 ≤ H) :
    (Resize img (W : ℤ) (H : ℤ) filter).w = W ∧
      (Resize img (W : ℤ) (H : ℤ) filter).h = H := by
  obtain ⟨h1, h2⟩ := Resize_dims_pos img filter W H hw hh
    (by exact_mod_cast hW) (by exact_mod_cast hH)
  rw [h1, h2]
  omega

theorem c2_resize_exact_dims_witness :
    (1 ≤ gimg.w ∧ 1 ≤ gimg.h ∧ 1 ≤ 3 ∧ 1 ≤ 5) ∧
    ((Resize gimg ((3:ℕ) : ℤ) ((5:ℕ) : ℤ) Box).w = 3 ∧
      (Resize gimg ((3:ℕ) : ℤ) ((5:ℕ) : ℤ) Box).h = 5) :=
  ⟨⟨by norm_num [gimg], by norm_num [gimg], by norm_num, by norm_num⟩,
    c2_resize_exact_dims gimg Box 3 5 (by norm_num [gimg]) (by norm_num [gimg])
      (by norm_num) (by norm_num)⟩

/-- Claim C3: for every data size and every configuration of the
parallelization flag and processor count, the chunks on which parallel
invokes the work function contain every index below the data size
exactly once and no index at or above it, so the chunks are pairwise
disjoint and cover exactly the half-open range from 0 to the size. -/
theorem c3_parallel_partition (enabled : Bool) (numProcs dataSize i : ℕ) :
    (parallelChunks enabled numProcs dataSize).countP
        (fun c => decide (c.1 ≤ i ∧ i < c.2)) =
      if i < dataSize then 1 else 0 := by
  simp only [parallelChunks]
  by_cases hg : (if enabled ∧ 1 < numProcs then numProcs else 1) = 1
  · rw [if_pos hg]
    simp only [List.countP_cons, List.countP_nil]
    by_cases hi : i < dataSize
    · rw [if_pos hi]
      simp [hi]
    · rw [if_neg hi]
      simp [hi]
  · rw [if_neg hg]
    have hP : 0 < (if dataSize / ((if enabled ∧ 1 < numProcs then numProcs else 1) * 100) < 1
        then 1 else dataSize / ((if enabled ∧ 1 < numProcs then numProcs else 1) * 100)) := by
      set q := dataSize / ((if enabled ∧ 1 < numProcs then numProcs else 1) * 100) with hq
      split <;> omega
    rw [chunkList_countP _ dataSize i hP dataSize 0 (by omega)]
    simp

/-- Claim C4 counterexample: the 2 by 2 image with three opaque white
pixels and a transparent black corner, downscaled to 1 by 1 with Box,
does NOT give a red channel of 255: the resampler weights color
channels by the kernel only, so the transparent black pixel darkens
the average. -/
theorem c4_box_transparent_counterexample :
    (Resize c4img 1 1 Box).at 0 0 0 ≠ 255 := by
  rw [c4_value 0 (by norm_num)]
  norm_num

/-- Claim C4 amended: the transparent-corner 2 by 2 Box downscale to
1 by 1 yields 192 on every channel (two passes of averaging with
rounding of 127.5 to 128 and 191.5 to 192), so the opaque neighbors
ARE darkened, because the convolution is not alpha-weighted. -/
theorem c4_box_transparent_amended :
    (Resize c4img 1 1 Box).at 0 0 0 = 192 ∧
    (Resize c4img 1 1 Box).at 0 0 1 = 192 ∧
    (Resize c4img 1 1 Box).at 0 0 2 = 192 ∧
    (Resize c4img 1 1 Box).at 0 0 3 = 192 :=
  ⟨c4_value 0 (by norm_num), c4_value 1 (by norm_num),
    c4_value 2 (by norm_num), c4_value 3 (by norm_num)⟩

/-- Claim C5 counterexample: Resize of a 2 by 2 source with width 0 and
height 2 does not return a zero-sized buffer: it returns a 2 by 2
buffer derived from the aspect ratio. -/
theorem c5_zero_dim_counterexample :
    (Resize gimg 0 2 Box).w * (Resize gimg 0 2 Box).h ≠ 0 := by
  obtain ⟨h1, h2⟩ := Resize_aspectW_dims gimg Box 2 (by norm_num [gimg])
    (by norm_num [gimg]) (by norm_num)
  rw [h1, h2, gimg_w, gimg_h]
  norm_num

/-- Claim C5 amended: a negative requested dimension, or both
dimensions zero, yields the empty buffer; a single zero dimension with
the other positive does NOT yield a zero-sized buffer but a non-empty
one whose missing dimension is derived from the aspect ratio. -/
theorem c5_degenerate_dims_amended (img : GoImage) (filter : ResampleFilter) (W H : ℤ)
    (hw : 1 ≤ img.w) (hh : 1 ≤ img.h) :
    ((W < 0 ∨ H < 0) → Resize img W H filter = NRGBA.empty) ∧
    (Resize img 0 0 filter = NRGBA.empty) ∧
    (W = 0 → 1 ≤ H → 0 < (Resize img W H filter).w * (Resize img W H filter).h) ∧
    (H = 0 → 1 ≤ W → 0 < (Resize img W H filter).w * (Resize img W H filter).h) := by
  refine ⟨fun hneg => Resize_neg img filter W H hneg, Resize_zero_zero img filter, ?_, ?_⟩
  · intro hW0 hH
    subst hW0
    obtain ⟨h1, h2⟩ := Resize_aspectW_dims img filter H hw hh hH
    rw [h1, h2]
    have hD : 1 ≤ max 1 ⌊(H : ℚ) * (img.w : ℚ) / (img.h : ℚ) + 1/2⌋ := le_max_left 1 _
    refine Nat.mul_pos ?_ ?_ <;> omega
  · intro hH0 hW
    subst hH0
    obtain ⟨h1, h2⟩ := Resize_aspectH_dims img filter W hw hh hW
    rw [h1, h2]
    have hD : 1 ≤ max 1 ⌊(W : ℚ) * (img.h : ℚ) / (img.w : ℚ) + 1/2⌋ := le_max_left 1 _
    refine Nat.mul_pos ?_ ?_ <;> omega

theorem c5_degenerate_dims_amended_witness :
    (1 ≤ gimg.w ∧ 1 ≤ gimg.h) ∧
    ((((-1 : ℤ) < 0 ∨ (2:ℤ) < 0) → Resize gimg (-1) 2 Box = NRGBA.empty) ∧
    (Resize gimg 0 0 Box = NRGBA.empty) ∧
    ((-1 : ℤ) = 0 → 1 ≤ (2:ℤ) → 0 < (Resize gimg (-1) 2 Box).w * (Resize gimg (-1) 2 Box).h) ∧
    ((2 : ℤ) = 0 → 1 ≤ (-1:ℤ) → 0 < (Resize gimg (-1) 2 Box).w * (Resize gimg (-1) 2 Box).h)) :=
  ⟨⟨by norm_num [gimg], by norm_num [gimg]⟩,
    c5_degenerate_dims_amended gimg Box (-1) 2 (by norm_num [gimg]) (by norm_num [gimg])⟩

/-- Claim C6: when exactly one requested dimension is zero and the
other positive, Resize derives the zero dimension from the source
aspect ratio as the maximum of 1 and floor(other times ratio plus one
half), and a negative requested dimension yields the empty buffer. -/
theorem c6_aspect_ratio_derivation (img : GoImage) (filter : ResampleFilter)
    (hw : 1 ≤ img.w) (hh : 1 ≤ img.h) :
    (∀ H : ℤ, 1 ≤ H →
      (Resize img 0 H filter).w =
          (max 1 ⌊(H : ℚ) * (img.w : ℚ) / (img.h : ℚ) + 1/2⌋).toNat ∧
        (Resize img 0 H filter).h = H.toNat) ∧
    (∀ W : ℤ, 1 ≤ W →
      (Resize img W 0 filter).w = W.toNat ∧
        (Resize img W 0 filter).h =
          (max 1 ⌊(W : ℚ) * (img.h : ℚ) / (img.w : ℚ) + 1/2⌋).toNat) ∧
    (∀ W H : ℤ, (W < 0 ∨ H < 0) → Resize img W H filter = NRGBA.empty) :=
  ⟨fun H hH => Resize_aspectW_dims img filter H hw hh hH,
    fun W hW => Resize_aspectH_dims img filter W hw hh hW,
    fun W H hneg => Resize_neg img filter W H hneg⟩

theorem c6_aspect_ratio_derivation_witness :
    (1 ≤ gimg.w ∧ 1 ≤ gimg.h) ∧
    ((∀ H : ℤ, 1 ≤ H →
      (Resize gimg 0 H Box).w =
          (max 1 ⌊(H : ℚ) * (gimg.w : ℚ) / (gimg.h : ℚ) + 1/2⌋).toNat ∧
        (Resize gimg 0 H Box).h = H.toNat) ∧
    (∀ W : ℤ, 1 ≤ W →
      (Resize gimg W 0 Box).w = W.toNat ∧
        (Resize gimg W 0 Box).h =
          (max 1 ⌊(W : ℚ) * (gimg.h : ℚ) / (gimg.w : ℚ) + 1/2⌋).toNat) ∧
    (∀ W H : ℤ, (W < 0 ∨ H < 0) → Resize gimg W H Box = NRGBA.empty)) :=
  ⟨⟨by norm_num [gimg], by norm_num [gimg]⟩,
    c6_aspect_ratio_derivation gimg Box (by norm_num [gimg]) (by norm_num [gimg])⟩

/-- Claim C7 counterexample: a valid premultiplied RGBA64 pixel with
16-bit red 0xfeff and 16-bit alpha 0xff00 (alpha neither 0 nor the
16-bit maximum): the claim prescribes the division path giving red byte
255, but the code reads only the high alpha byte 0xff and takes the
direct-copy path, storing 254. -/
theorem c7_scan_rgba64_counterexample :
    scanRGBA64Pixel 254 255 0 0 0 0 255 0 ≠ specScanRGBA64 254 255 0 0 0 0 255 0 := by
  decide

/-- Claim C7 amended: the 8-bit RGBA branch is exactly as claimed
(alpha through, alpha 0 black, alpha 255 copy, otherwise c*255/alpha);
the 16-bit RGBA64 branch computes the claimed division path, but its
zero and maximum tests are on the high byte of the 16-bit alpha rather
than the full 16-bit value. -/
theorem c7_scan_unpremultiply_amended
    (s0 s1 s2 s3 t0 t1 t2 t3 t4 t5 t6 t7 : ℕ)
    (hs0 : s0 ≤ s3) (hs1 : s1 ≤ s3) (hs2 : s2 ≤ s3) (hs3 : s3 ≤ 255)
    (htb : t0 ≤ 255 ∧ t1 ≤ 255 ∧ t2 ≤ 255 ∧ t3 ≤ 255 ∧
      t4 ≤ 255 ∧ t5 ≤ 255 ∧ t6 ≤ 255 ∧ t7 ≤ 255)
    (ht0 : t0 * 256 + t1 ≤ t6 * 256 + t7)
    (ht2 : t2 * 256 + t3 ≤ t6 * 256 + t7)
    (ht4 : t4 * 256 + t5 ≤ t6 * 256 + t7) :
    scanRGBAPixel s0 s1 s2 s3 = specScanRGBA s0 s1 s2 s3 ∧
      scanRGBA64Pixel t0 t1 t2 t3 t4 t5 t6 t7 =
        specScanRGBA64Amended t0 t1 t2 t3 t4 t5 t6 t7 := by
  obtain ⟨hb0, hb1, hb2, hb3, hb4, hb5, hb6, hb7⟩ := htb
  constructor
  · simp only [scanRGBAPixel, specScanRGBA]
    by_cases h0 : s3 = 0
    · simp [h0]
    · rw [if_neg h0, if_neg h0]
      by_cases h255 : s3 = 255
      · simp [h255]
      · rw [if_neg h255, if_neg h255]
        have hlt : 0 < s3 := by omega
        have e : ∀ a : ℕ, a ≤ s3 → a * 255 % 65536 / s3 % 256 = a * 255 / s3 := by
          intro a ha
          have hm : a * 255 < 65536 := by omega
          have hq : a * 255 / s3 < 256 := by
            have := nat_mul_div_le a s3 255 ha hlt
            omega
          rw [Nat.mod_eq_of_lt hm, Nat.mod_eq_of_lt hq]
        rw [e s0 hs0, e s1 hs1, e s2 hs2]
  · simp only [scanRGBA64Pixel, specScanRGBA64Amended]
    by_cases h0 : t6 = 0
    · simp [h0]
    · rw [if_neg h0, if_neg h0]
      by_cases h255 : t6 = 255
      · simp [h255]
      · rw [if_neg h255, if_neg h255]
        have hb : 0 < t6 * 256 + t7 := by omega
        have e64 : ∀ a : ℕ, a ≤ t6 * 256 + t7 → a ≤ 65535 →
            a % 4294967296 * 65535 % 4294967296 / ((t6 * 256 + t7) % 4294967296) / 256 % 256 =
              a * 65535 / (t6 * 256 + t7) / 256 := by
          intro a ha ha2
          have h1 : a * 65535 / (t6 * 256 + t7) ≤ 65535 :=
            nat_mul_div_le a (t6 * 256 + t7) 65535 ha hb
          have h2 : a * 65535 / (t6 * 256 + t7) / 256 < 256 := by omega
          rw [Nat.mod_eq_of_lt (by omega : a < 4294967296),
            Nat.mod_eq_of_lt (by omega : (t6 * 256 + t7) < 4294967296),
            Nat.mod_eq_of_lt (by omega : a * 65535 < 4294967296),
            Nat.mod_eq_of_lt h2]
        rw [e64 _ ht0 (by omega), e64 _ ht2 (by omega), e64 _ ht4 (by omega)]

theorem c7_scan_unpremultiply_amended_witness :
    ((10 : ℕ) ≤ 100 ∧ (20 : ℕ) ≤ 100 ∧ (30 : ℕ) ≤ 100 ∧ (100 : ℕ) ≤ 255 ∧
      ((50:ℕ) ≤ 255 ∧ (0:ℕ) ≤ 255 ∧ (60:ℕ) ≤ 255 ∧ (0:ℕ) ≤ 255 ∧
        (70:ℕ) ≤ 255 ∧ (0:ℕ) ≤ 255 ∧ (100:ℕ) ≤ 255 ∧ (0:ℕ) ≤ 255) ∧
      (50 : ℕ) * 256 + 0 ≤ 100 * 256 + 0 ∧
      (60 : ℕ) * 256 + 0 ≤ 100 * 256 + 0 ∧
      (70 : ℕ) * 256 + 0 ≤ 100 * 256 + 0) ∧
    (scanRGBAPixel 10 20 30 100 = specScanRGBA 10 20 30 100 ∧
      scanRGBA64Pixel 50 0 60 0 70 0 100 0 =
        specScanRGBA64Amended 50 0 60 0 70 0 100 0) :=
  ⟨⟨by norm_num, by norm_num, by norm_num, by norm_num,
      ⟨by norm_num, by norm_num, by norm_num, by norm_num,
        by norm_num, by norm_num, by norm_num, by norm_num⟩,
      by norm_num, by norm_num, by norm_num⟩,
    c7_scan_unpremultiply_amended 10 20 30 100 50 0 60 0 70 0 100 0
      (by norm_num) (by norm_num) (by norm_num) (by norm_num)
      ⟨by norm_num, by norm_num, by norm_num, by norm_num,
        by norm_num, by norm_num, by norm_num, by norm_num⟩
      (by norm_num) (by norm_num) (by norm_num)⟩

/-- Claim C8: Thumbnail returns a buffer of exactly the requested
dimensions for every positive source and request: the resize-to-fill
pass yields an intermediate image at least as large as the request in
both dimensions, so the center crop is never clipped short. -/
theorem c8_thumbnail_exact_dims (img : GoImage) (filter : ResampleFilter) (W H : ℕ)
    (hw : 1 ≤ img.w) (hh : 1 ≤ img.h) (hW : 1 ≤ W) (hH : 1 ≤ H) :
    (Thumbnail img (W : ℤ) (H : ℤ) filter).w = W ∧
      (Thumbnail img (W : ℤ) (H : ℤ) filter).h = H := by
  obtain ⟨h1, h2⟩ := Thumbnail_dims img filter W H hw hh
    (by exact_mod_cast hW) (by exact_mod_cast hH)
  rw [h1, h2]
  omega

theorem c8_thumbnail_exact_dims_witness :
    (1 ≤ gimg.w ∧ 1 ≤ gimg.h ∧ 1 ≤ 3 ∧ 1 ≤ 1) ∧
    ((Thumbnail gimg ((3:ℕ) : ℤ) ((1:ℕ) : ℤ) Box).w = 3 ∧
      (Thumbnail gimg ((3:ℕ) : ℤ) ((1:ℕ) : ℤ) Box).h = 1) :=
  ⟨⟨by norm_num [gimg], by norm_num [gimg], by norm_num, by norm_num⟩,
    c8_thumbnail_exact_dims gimg Box 3 1 (by norm_num [gimg]) (by norm_num [gimg])
      (by norm_num) (by norm_num)⟩

/-- Claim C9: for every sigma at most 0 (0 included), Blur and Sharpen
return the Clone of the input, which is the canonical RGBA conversion:
same dimensions as the source bounds and pixel for pixel the canonical
bytes of the source read at its own origin offset. -/
theorem c9_blur_sharpen_sigma_nonpos (gk : ℚ → ℚ → ℚ) (img : GoImage) (sigma : ℚ)
    (hs : sigma ≤ 0) :
    Blur gk img sigma = Clone img ∧ Sharpen gk img sigma = Clone img ∧
    (Clone img).w = img.w ∧ (Clone img).h = img.h ∧
    (∀ x y c, x < img.w → c < 4 →
      (Blur gk img sigma).at x y c = img.At (img.minX + x) (img.minY + y) c) := by
  have hB : Blur gk img sigma = Clone img := by
    simp only [Blur]
    rw [if_pos hs]
  have hS : Sharpen gk img sigma = Clone img := by
    simp only [Sharpen]
    rw [if_pos hs]
  refine ⟨hB, hS, rfl, rfl, ?_⟩
  intro x y c hx hc
  rw [hB]
  exact NRGBA.at_ofFn img.w img.h _ x y c hx hc

theorem c9_blur_sharpen_sigma_nonpos_witness :
    ((0 : ℚ) ≤ 0) ∧
    (Blur (fun _ _ => 0) gimg 0 = Clone gimg ∧
      Sharpen (fun _ _ => 0) gimg 0 = Clone gimg ∧
      (Clone gimg).w = gimg.w ∧ (Clone gimg).h = gimg.h ∧
      (∀ x y c, x < gimg.w → c < 4 →
        (Blur (fun _ _ => 0) gimg 0).at x y c =
          gimg.At (gimg.minX + x) (gimg.minY + y) c)) :=
  ⟨le_refl 0, c9_blur_sharpen_sigma_nonpos (fun _ _ => 0) gimg 0 (le_refl 0)⟩

/-- Claim C10: in the nearest-neighbor path the computed source index
is clamped above by the source size rather than size minus one, yet for
every positive source and destination size and every in-range
destination coordinate the selected index lies between 0 and size minus
one on both axes, and the 4-byte read of the selected pixel stays
inside the source buffer. -/
theorem c10_nearest_index_safe (src : NRGBA) (dstW dstH dstX dstY : ℕ)
    (hw : 1 ≤ src.w) (hh : 1 ≤ src.h) (hdW : 1 ≤ dstW) (hdH : 1 ≤ dstH)
    (hx : dstX < dstW) (hy : dstY < dstH) :
    (0 ≤ nearestIdx src.w dstW dstX ∧ nearestIdx src.w dstW dstX ≤ (src.w : ℤ) - 1) ∧
    (0 ≤ nearestIdx src.h dstH dstY ∧ nearestIdx src.h dstH dstY ≤ (src.h : ℤ) - 1) ∧
    (nearestIdx src.h dstH dstY).toNat * src.stride +
        (nearestIdx src.w dstW dstX).toNat * 4 + 3 < 4 * src.w * src.h := by
  obtain ⟨hx0, hx1⟩ := nearestIdx_bounds src.w dstW dstX hw hdW hx
  obtain ⟨hy0, hy1⟩ := nearestIdx_bounds src.h dstH dstY hh hdH hy
  refine ⟨⟨hx0, hx1⟩, ⟨hy0, hy1⟩, ?_⟩
  simp only [NRGBA.stride]
  have hX : (nearestIdx src.w dstW dstX).toNat * 4 + 3 < 4 * src.w := by omega
  have h2 : (nearestIdx src.h dstH dstY).toNat * (4 * src.w) +
      ((nearestIdx src.w dstW dstX).toNat * 4 + 3) <
      ((nearestIdx src.h dstH dstY).toNat + 1) * (4 * src.w) := by
    have e : ((nearestIdx src.h dstH dstY).toNat + 1) * (4 * src.w) =
        (nearestIdx src.h dstH dstY).toNat * (4 * src.w) + 4 * src.w := by ring
    rw [e]
    exact Nat.add_lt_add_left hX _
  have h3 : ((nearestIdx src.h dstH dstY).toNat + 1) * (4 * src.w) ≤
      src.h * (4 * src.w) :=
    Nat.mul_le_mul_right _ (by omega)
  have h4 : src.h * (4 * src.w) = 4 * src.w * src.h := by ring
  omega

theorem c10_nearest_index_safe_witness :
    (1 ≤ wimg.w ∧ 1 ≤ wimg.h ∧ 1 ≤ 3 ∧ 1 ≤ 3 ∧ 0 < 3 ∧ 0 < 3) ∧
    ((0 ≤ nearestIdx wimg.w 3 0 ∧ nearestIdx wimg.w 3 0 ≤ (wimg.w : ℤ) - 1) ∧
    (0 ≤ nearestIdx wimg.h 3 0 ∧ nearestIdx wimg.h 3 0 ≤ (wimg.h : ℤ) - 1) ∧
    (nearestIdx wimg.h 3 0).toNat * wimg.stride +
        (nearestIdx wimg.w 3 0).toNat * 4 + 3 < 4 * wimg.w * wimg.h) :=
  ⟨⟨by norm_num [wimg], by norm_num [wimg], by norm_num, by norm_num,
      by norm_num, by norm_num⟩,
    c10_nearest_index_safe wimg 3 3 0 0 (by norm_num [wimg]) (by norm_num [wimg])
      (by norm_num) (by norm_num) (by norm_num) (by norm_num)⟩

end Imaging
